import Mathlib

/-!
Verification of the session-coordination core of the rsd2 torrent
download service (`rsd2v2.go`, with `main.go` a near-identical earlier
entry point sharing the same `downloadFile`/`downloadTorrent` loop and
handler bodies).

The shallow embedding below translates, from the Go source:

* `ProgressResponse` (the per-session progress record),
* the progress update performed inside `downloadFile`
  (`progress.DownloadedBytes += int64(n)`;
  `progress.Progress = int(float64(d) / float64(t) * 100)`),
* the `for { select { case <-cancelChan: ...; default: ... } }` read
  loop of `downloadFile`, including the fact that the `break` executed
  on `io.EOF` terminates only the enclosing `select` statement, never
  the `for` loop,
* `downloadTorrent`'s per-file iteration, total-size computation and
  the `completedFiles[sessionID] = fileMap[sessionID]` completion mark,
* the package-level maps (`progressMap`, `downloadMap`, `fileMap`,
  `completedFiles`) and the HTTP handlers `downloadHandler`,
  `progressHandler`, `cancelHandler`, `completedHandler`, together with
  the worker goroutine's deferred cleanup,
* the unbuffered cancellation channel `make(chan bool)` and the Go
  semantics of a send on it (`cancelChan <- true` completes only when a
  receiver is ready; an unbuffered channel has no slack).

Byte counters are modelled as `Nat`: the Go fields are `int64`, all
values reached here are non-negative and far below `2^63`, so wrap-around
is irrelevant to every claim treated below.
-/

namespace Rsd2

/-- Go struct `ProgressResponse` (rsd2v2.go lines 32-36): the per-session
progress record stored in `progressMap` and mutated by the worker. -/
structure ProgressResponse where
  progress : Int
  downloadedBytes : Nat
  totalSizeBytes : Nat
deriving DecidableEq, Repr

/-- The progress update executed in `downloadFile` when a read returns
`n > 0` bytes (rsd2v2.go lines 115-116):

  `progress.DownloadedBytes += int64(n)`
  `progress.Progress = int(float64(d) / float64(t) * 100)`

The float64 expression is modelled by exact integer arithmetic:
`d * 100 / t` (Go's `int` conversion truncates toward zero and all
values are non-negative, so this is the floor).  The float64 computation
agrees with this for every value appearing in the theorems below; it can
differ by one on other inputs (see the claim C7 discussion at
`advance_scenario_values`).  When `t = 0` the Go code divides by zero in
float64 (`+Inf`) and the `int` conversion of that non-finite value is
implementation-defined; the parameter `j` stands for that
implementation-defined integer, so theorems quantifying over `j` show a
property holds no matter what the division by zero would have produced. -/
def advance (j : Int) (p : ProgressResponse) (n : Nat) : ProgressResponse :=
  let d := p.downloadedBytes + n
  { p with
    downloadedBytes := d
    progress := if p.totalSizeBytes = 0 then j else Int.ofNat (d * 100 / p.totalSizeBytes) }

/-- Read errors distinguished by the loop: `io.EOF` versus any other error. -/
inductive ReadErr where
  | eof
  | other
deriving DecidableEq, Repr

/-- One iteration of the `for`/`select` loop in `downloadFile`, as seen by
the worker: either the `case <-cancelChan` branch fires, or the `default`
branch runs `reader.Read(buffer)` returning `n` bytes and error `err`,
after which `outFile.Write(buffer[:n])` fails iff `writeFails` (only
relevant when `n > 0`, since the write only runs then). -/
inductive IterInput where
  | cancel
  | read (n : Nat) (err : Option ReadErr) (writeFails : Bool)
deriving DecidableEq, Repr

/-- How (or whether) the `downloadFile` loop returned. `running` means the
given iterations were exhausted without the function returning: the loop
is still going. -/
inductive FileExit where
  | cancelled
  | failed
  | running
deriving DecidableEq, Repr

/-- Exit behaviour of the `downloadFile` read loop (rsd2v2.go lines
104-129) on a sequence of iterations.  Faithful to the source: the
`case <-cancelChan` branch returns `nil` (here `.cancelled`), a write
error or a non-EOF read error returns an error (`.failed`), and on
`err == io.EOF` the `break` statement terminates only the innermost
enclosing `for`/`switch`/`select` statement — which is the `select` —
so the `for` loop continues with another read. -/
def fileLoopExit : List IterInput → FileExit
  | [] => .running
  | .cancel :: _ => .cancelled
  | .read n err wf :: rest =>
    if 0 < n ∧ wf = true then .failed
    else
      match err with
      | some .eof => fileLoopExit rest
      | some .other => .failed
      | none => fileLoopExit rest

/-- The progress record held by the worker after the `downloadFile` loop
has consumed the given iterations (same control flow as `fileLoopExit`;
a read of `n > 0` bytes performs `advance` before any error handling,
matching the source order: bytes are counted even when the write or the
same read's error then aborts the loop). -/
def fileLoopFinal (j : Int) : List IterInput → ProgressResponse → ProgressResponse
  | [], p => p
  | .cancel :: _, p => p
  | .read n err wf :: rest, p =>
    let p' := if 0 < n then advance j p n else p
    if 0 < n ∧ wf = true then p'
    else
      match err with
      | some .eof => fileLoopFinal j rest p'
      | some .other => p'
      | none => fileLoopFinal j rest p'

/-- Every progress record the loop exposes to a concurrent
`progressHandler` poll: the record after each executed iteration,
in order (the observation before the first iteration is added by
`sessionObservations` below). -/
def fileLoopTrace (j : Int) : List IterInput → ProgressResponse → List ProgressResponse
  | [], _ => []
  | .cancel :: _, _ => []
  | .read n err wf :: rest, p =>
    let p' := if 0 < n then advance j p n else p
    if 0 < n ∧ wf = true then [p']
    else
      match err with
      | some .eof => p' :: fileLoopTrace j rest p'
      | some .other => [p']
      | none => p' :: fileLoopTrace j rest p'

/-- Total number of bytes delivered by the reads in a list of iterations
(an upper bound on what the loop can accumulate from them). -/
def bytesOf : List IterInput → Nat
  | [] => 0
  | .cancel :: rest => bytesOf rest
  | .read n _ _ :: rest => n + bytesOf rest

/-- Exit behaviour of the per-file loop as the specification words it. -/
inductive FileExitSpec where
  | cancelled
  | failed
  | eofCompleted
  | running
deriving DecidableEq, Repr

/-- Follows the specification's words for the per-file loop, for contrast
with the source's `fileLoopExit`: "On end-of-stream for a file (not an
error), proceed to the next file" and "only an explicit end-of-stream
indicator ends the per-file loop" — i.e. the end-of-stream indicator
terminates the loop successfully (`.eofCompleted`), everything else is
as in the source. -/
def fileLoopSpecExit : List IterInput → FileExitSpec
  | [] => .running
  | .cancel :: _ => .cancelled
  | .read n err wf :: rest =>
    if 0 < n ∧ wf = true then .failed
    else
      match err with
      | some .eof => .eofCompleted
      | some .other => .failed
      | none => fileLoopSpecExit rest

/-- One constituent file of the torrent, as the worker sees it: its
path (`filepath.Join(downloadDir, file.Path())`), its resolved length
(`file.Length()`), and the iteration behaviour of its stream. -/
structure FileJob where
  path : String
  length : Nat
  inputs : List IterInput
deriving DecidableEq, Repr

/-- The per-session state touched by a single worker goroutine:
the `ProgressResponse` it mutates, the set of file paths present in
storage, its `fileMap[sessionID]` entry and its
`completedFiles[sessionID]` entry. -/
structure RunState where
  prog : ProgressResponse
  storage : List String
  fileEntry : Option String
  completedEntry : Option String
deriving DecidableEq, Repr

/-- A worker starts on the fresh state installed by `downloadHandler`:
a zeroed `ProgressResponse`, nothing yet written, no `fileMap` or
`completedFiles` entry for the session. -/
def initRun : RunState :=
  { prog := ⟨0, 0, 0⟩, storage := [], fileEntry := none, completedEntry := none }

/-- Total size computed by `downloadTorrent` (rsd2v2.go lines 57-60):
the sum of the lengths of the torrent's files. -/
def sumLen (jobs : List FileJob) : Nat :=
  (jobs.map FileJob.length).sum

/-- The assignment `progress.TotalSizeBytes = totalSize`
(rsd2v2.go line 61), performed after `GotInfo` and before any file is
downloaded. -/
def setTotal (s : RunState) (t : Nat) : RunState :=
  { s with prog := { s.prog with totalSizeBytes := t } }

/-- How (or whether) `downloadTorrent` returned. `stuck` means some
file's loop never returned, so the torrent loop never advanced past it. -/
inductive TorrentExit where
  | completed
  | failed
  | stuck
deriving DecidableEq, Repr

/-- State effect of one `downloadFile` call (rsd2v2.go lines 80-132):
record the file path in `fileMap`, create the output file
(`os.Create`, truncating any existing one), run the read loop, and —
only in the `case <-cancelChan` branch — `os.Remove` the file. -/
def downloadFileFinal (j : Int) (job : FileJob) (s : RunState) : RunState :=
  let created : RunState :=
    { s with
      fileEntry := some job.path
      storage := job.path :: s.storage.filter (fun q => q != job.path) }
  let p' := fileLoopFinal j job.inputs created.prog
  match fileLoopExit job.inputs with
  | .cancelled =>
      { created with
        prog := p'
        storage := created.storage.filter (fun q => q != job.path) }
  | _ => { created with prog := p' }

/-- Exit behaviour of `downloadTorrent`'s per-file loop
(rsd2v2.go lines 64-69).  Faithful to the source: `downloadFile`
returns `nil` both on normal exit and in the cancellation branch, so a
cancelled file is indistinguishable from a finished one and the loop
proceeds to the next file; only a non-nil error aborts the torrent. -/
def downloadFilesExit : List FileJob → TorrentExit
  | [] => .completed
  | job :: rest =>
    match fileLoopExit job.inputs with
    | .cancelled => downloadFilesExit rest
    | .failed => .failed
    | .running => .stuck

/-- Final per-session state of `downloadTorrent`'s file loop, including
the completion mark `completedFiles[sessionID] = fileMap[sessionID]`
(rsd2v2.go line 73) executed when every `downloadFile` call returned
`nil`; a missing `fileMap` entry reads as the Go zero value `""`. -/
def downloadFilesFinal (j : Int) : List FileJob → RunState → RunState
  | [], s => { s with completedEntry := some (s.fileEntry.getD "") }
  | job :: rest, s =>
    let s' := downloadFileFinal j job s
    match fileLoopExit job.inputs with
    | .cancelled => downloadFilesFinal j rest s'
    | _ => s'

/-- All progress records exposed during `downloadTorrent`'s file loop. -/
def downloadFilesTrace (j : Int) : List FileJob → RunState → List ProgressResponse
  | [], _ => []
  | job :: rest, s =>
    let s' := downloadFileFinal j job s
    let tr := fileLoopTrace j job.inputs s.prog
    match fileLoopExit job.inputs with
    | .cancelled => tr ++ downloadFilesTrace j rest s'
    | _ => tr

/-- Exit behaviour of a whole `downloadTorrent` call. -/
def downloadTorrentExit (jobs : List FileJob) : TorrentExit :=
  downloadFilesExit jobs

/-- Final per-session state of a whole `downloadTorrent` call: set the
total size, then run the file loop. -/
def downloadTorrentFinal (j : Int) (jobs : List FileJob) (s : RunState) : RunState :=
  downloadFilesFinal j jobs (setTotal s (sumLen jobs))

/-- Progress records exposed by a `downloadTorrent` call after the total
size has been set. -/
def downloadTorrentTrace (j : Int) (jobs : List FileJob) (s : RunState) :
    List ProgressResponse :=
  (setTotal s (sumLen jobs)).prog :: downloadFilesTrace j jobs (setTotal s (sumLen jobs))

/-- Every progress record a concurrent `progressHandler` poll can observe
over the session's life: the fresh record installed by
`downloadHandler`, then everything the worker exposes. -/
def sessionObservations (j : Int) (jobs : List FileJob) (s : RunState) :
    List ProgressResponse :=
  s.prog :: downloadTorrentTrace j jobs s

/-- A Go channel of booleans, characterised by what matters for send
semantics: its buffer capacity and current buffer occupancy. -/
structure GoChan where
  capacity : Nat
  queued : Nat
deriving DecidableEq, Repr

/-- The channel created per session by `downloadHandler`
(rsd2v2.go line 377): `make(chan bool)` — capacity 0, unbuffered. -/
def newCancelChan : GoChan :=
  { capacity := 0, queued := 0 }

inductive SendOutcome where
  | completes
  | blocksUntilReceive
deriving DecidableEq, Repr

/-- Go semantics of a channel send `ch <- v`: it completes immediately
when a receiver is currently waiting on the channel, or when the buffer
has free space; otherwise the sending goroutine blocks until a receiver
arrives. -/
def chanSend (c : GoChan) (receiverWaiting : Bool) : SendOutcome :=
  if receiverWaiting = true then .completes
  else if c.queued < c.capacity then .completes
  else .blocksUntilReceive

/-- The four package-level maps of rsd2v2.go (lines 20-23), all guarded
by the single mutex `mu`.  Association lists keyed by session id; the
`ProgressResponse` stored is the record the handler installed (Go stores
a pointer to it; the entry here is its value at the instants the claims
examine). -/
structure ServerState where
  progressMap : List (String × ProgressResponse)
  downloadMap : List (String × GoChan)
  fileMap : List (String × String)
  completedFiles : List (String × String)
deriving DecidableEq, Repr

/-- Go map read `m[k]`, as an option. -/
def mlookup {α : Type} : List (String × α) → String → Option α
  | [], _ => none
  | (k, v) :: rest, key => if k = key then some v else mlookup rest key

/-- Go map delete `delete(m, k)`. -/
def merase {α : Type} : List (String × α) → String → List (String × α)
  | [], _ => []
  | (k, v) :: rest, key =>
    if k = key then merase rest key else (k, v) :: merase rest key

/-- Go map assignment `m[k] = v` (overwrites any previous binding). -/
def minsert {α : Type} (m : List (String × α)) (k : String) (v : α) :
    List (String × α) :=
  (k, v) :: merase m k

def emptyState : ServerState :=
  { progressMap := [], downloadMap := [], fileMap := [], completedFiles := [] }

inductive DownloadResult where
  | badRequest (msg : String)
  | accepted
deriving DecidableEq, Repr

/-- `downloadHandler` (rsd2v2.go lines 351-396): reject an empty
sessionID; otherwise, if a session with this id exists, delete its
progress, channel and file entries; then install a zeroed
`ProgressResponse` and a fresh unbuffered cancel channel and spawn the
worker (the worker's effect is modelled by `downloadTorrentFinal` and
`workerCleanup`). -/
def downloadHandler (st : ServerState) (sessionID : String) :
    DownloadResult × ServerState :=
  if sessionID = "" then (.badRequest "sessionID is required", st)
  else
    let st1 : ServerState :=
      if (mlookup st.progressMap sessionID).isSome then
        { st with
          progressMap := merase st.progressMap sessionID
          downloadMap := merase st.downloadMap sessionID
          fileMap := merase st.fileMap sessionID }
      else st
    (.accepted,
      { st1 with
        progressMap := minsert st1.progressMap sessionID ⟨0, 0, 0⟩
        downloadMap := minsert st1.downloadMap sessionID newCancelChan })

inductive ProgressResult where
  | badRequest (msg : String)
  | notFound
  | ok (p : ProgressResponse)
deriving DecidableEq, Repr

/-- `progressHandler` (rsd2v2.go lines 134-152): reject an empty
sessionID, report `NotFound` for an unknown one, otherwise return the
stored progress record.  It never modifies any map. -/
def progressHandler (st : ServerState) (sessionID : String) : ProgressResult :=
  if sessionID = "" then .badRequest "sessionID is required"
  else
    match mlookup st.progressMap sessionID with
    | none => .notFound
    | some p => .ok p

inductive CancelResult where
  | badRequest (msg : String)
  | notFound
  | blockedSend
  | accepted
deriving DecidableEq, Repr

/-- `cancelHandler` (rsd2v2.go lines 398-433): reject an empty sessionID;
`NotFound` when `downloadMap` has no entry; otherwise perform
`cancelChan <- true`.  The channel is unbuffered, so when the worker is
not currently at its `select` receive the send blocks the handler —
while it holds the global mutex — and nothing further happens
(`.blockedSend`, state unchanged).  When the send completes, the handler
removes the file recorded in `fileMap` (also done by the worker's cancel
branch), deletes the `fileMap` entry, and overwrites the progress entry
with a zeroed record.  Note that it never deletes the `downloadMap`
entry. -/
def cancelHandler (st : ServerState) (sessionID : String)
    (workerReceiving : Bool) : CancelResult × ServerState :=
  if sessionID = "" then (.badRequest "sessionID is required", st)
  else
    match mlookup st.downloadMap sessionID with
    | none => (.notFound, st)
    | some ch =>
      match chanSend ch workerReceiving with
      | .blocksUntilReceive => (.blockedSend, st)
      | .completes =>
        let st1 : ServerState :=
          match mlookup st.fileMap sessionID with
          | some _ => { st with fileMap := merase st.fileMap sessionID }
          | none => st
        (.accepted,
          { st1 with progressMap := minsert st1.progressMap sessionID ⟨0, 0, 0⟩ })

/-- The worker goroutine's deferred cleanup (rsd2v2.go lines 388-392),
run after `downloadTorrent` returns: delete the session's progress,
channel and file entries.  `completedFiles` is not touched. -/
def workerCleanup (st : ServerState) (sessionID : String) : ServerState :=
  { st with
    progressMap := merase st.progressMap sessionID
    downloadMap := merase st.downloadMap sessionID
    fileMap := merase st.fileMap sessionID }

/-- The completion mark `completedFiles[sessionID] = fileMap[sessionID]`
(rsd2v2.go lines 72-75) at the server-state level; a missing `fileMap`
entry reads as the Go zero value `""`. -/
def markCompleted (st : ServerState) (sessionID : String) : ServerState :=
  { st with
    completedFiles :=
      minsert st.completedFiles sessionID ((mlookup st.fileMap sessionID).getD "") }

/-- The worker's write `fileMap[sessionID] = filePath`
(rsd2v2.go line 82) at the server-state level. -/
def fileEntrySet (st : ServerState) (sessionID path : String) : ServerState :=
  { st with fileMap := minsert st.fileMap sessionID path }

/-- `completedHandler` (rsd2v2.go lines 435-441): encode and return the
`completedFiles` map, unmodified. -/
def completedHandler (st : ServerState) : List (String × String) :=
  st.completedFiles

theorem advance_downloadedBytes (j : Int) (p : ProgressResponse) (n : Nat) :
    (advance j p n).downloadedBytes = p.downloadedBytes + n := rfl

theorem advance_totalSizeBytes (j : Int) (p : ProgressResponse) (n : Nat) :
    (advance j p n).totalSizeBytes = p.totalSizeBytes := rfl

theorem advance_j_indep (j₁ j₂ : Int) (p : ProgressResponse) (n : Nat)
    (ht : p.totalSizeBytes ≠ 0) : advance j₁ p n = advance j₂ p n := by
  simp [advance, ht]

theorem mlookup_minsert_self {α : Type} (m : List (String × α)) (k : String) (v : α) :
    mlookup (minsert m k v) k = some v := by
  simp [minsert, mlookup]

theorem mlookup_merase_self {α : Type} (m : List (String × α)) (k : String) :
    mlookup (merase m k) k = none := by
  induction m with
  | nil => rfl
  | cons kv rest ih =>
    obtain ⟨k', v⟩ := kv
    by_cases h : k' = k
    · simpa [merase, h] using ih
    · simpa [merase, mlookup, h] using ih

theorem stepRead_total (j : Int) (p : ProgressResponse) (n : Nat) :
    (if 0 < n then advance j p n else p).totalSizeBytes = p.totalSizeBytes := by
  split <;> rfl

theorem stepRead_downloaded_le (j : Int) (p : ProgressResponse) (n : Nat) :
    (if 0 < n then advance j p n else p).downloadedBytes ≤ p.downloadedBytes + n := by
  split <;> simp [advance_downloadedBytes]

theorem fileLoopFinal_total (j : Int) (inputs : List IterInput) (p : ProgressResponse) :
    (fileLoopFinal j inputs p).totalSizeBytes = p.totalSizeBytes := by
  induction inputs generalizing p with
  | nil => rfl
  | cons a rest ih =>
    cases a with
    | cancel => rfl
    | read n err wf =>
      have hstep := stepRead_total j p n
      by_cases hc : 0 < n ∧ wf = true
      · simpa [fileLoopFinal, hc] using hstep
      · cases err with
        | none =>
          simp only [fileLoopFinal, if_neg hc]
          rw [ih, hstep]
        | some e =>
          cases e with
          | eof =>
            simp only [fileLoopFinal, if_neg hc]
            rw [ih, hstep]
          | other =>
            simpa [fileLoopFinal, hc] using hstep

theorem fileLoopFinal_downloaded_le (j : Int) (inputs : List IterInput)
    (p : ProgressResponse) :
    (fileLoopFinal j inputs p).downloadedBytes ≤ p.downloadedBytes + bytesOf inputs := by
  induction inputs generalizing p with
  | nil => simp [fileLoopFinal, bytesOf]
  | cons a rest ih =>
    cases a with
    | cancel => simp [fileLoopFinal, bytesOf]
    | read n err wf =>
      have hstep := stepRead_downloaded_le j p n
      by_cases hc : 0 < n ∧ wf = true
      · simp only [fileLoopFinal, if_pos hc, bytesOf]
        omega
      · cases err with
        | none =>
          simp only [fileLoopFinal, if_neg hc, bytesOf]
          have h2 := ih (if 0 < n then advance j p n else p)
          omega
        | some e =>
          cases e with
          | eof =>
            simp only [fileLoopFinal, if_neg hc, bytesOf]
            have h2 := ih (if 0 < n then advance j p n else p)
            omega
          | other =>
            simp only [fileLoopFinal, if_neg hc, bytesOf]
            omega

theorem fileLoopTrace_bound (j : Int) (inputs : List IterInput) (p : ProgressResponse) :
    ∀ q ∈ fileLoopTrace j inputs p,
      q.downloadedBytes ≤ p.downloadedBytes + bytesOf inputs ∧
      q.totalSizeBytes = p.totalSizeBytes := by
  induction inputs generalizing p with
  | nil => simp [fileLoopTrace]
  | cons a rest ih =>
    cases a with
    | cancel => simp [fileLoopTrace]
    | read n err wf =>
      intro q hq
      have hstep := stepRead_downloaded_le j p n
      have hstept := stepRead_total j p n
      by_cases hc : 0 < n ∧ wf = true
      · simp only [fileLoopTrace, if_pos hc, List.mem_singleton] at hq
        subst hq
        constructor
        · simp only [bytesOf]; omega
        · exact hstept
      · cases err with
        | none =>
          simp only [fileLoopTrace, if_neg hc, List.mem_cons] at hq
          rcases hq with rfl | hq
          · exact ⟨by simp only [bytesOf]; omega, hstept⟩
          · have h2 := ih (if 0 < n then advance j p n else p) q hq
            refine ⟨by simp only [bytesOf]; omega, ?_⟩
            rw [h2.2, hstept]
        | some e =>
          cases e with
          | eof =>
            simp only [fileLoopTrace, if_neg hc, List.mem_cons] at hq
            rcases hq with rfl | hq
            · exact ⟨by simp only [bytesOf]; omega, hstept⟩
            · have h2 := ih (if 0 < n then advance j p n else p) q hq
              refine ⟨by simp only [bytesOf]; omega, ?_⟩
              rw [h2.2, hstept]
          | other =>
            simp only [fileLoopTrace, if_neg hc, List.mem_singleton] at hq
            subst hq
            exact ⟨by simp only [bytesOf]; omega, hstept⟩

theorem fileLoop_j_indep (j₁ j₂ : Int) (inputs : List IterInput) (p : ProgressResponse)
    (h : p.totalSizeBytes ≠ 0 ∨ bytesOf inputs = 0) :
    fileLoopFinal j₁ inputs p = fileLoopFinal j₂ inputs p ∧
    fileLoopTrace j₁ inputs p = fileLoopTrace j₂ inputs p := by
  induction inputs generalizing p with
  | nil => exact ⟨rfl, rfl⟩
  | cons a rest ih =>
    cases a with
    | cancel => exact ⟨rfl, rfl⟩
    | read n err wf =>
      have hp' : (if 0 < n then advance j₁ p n else p)
          = (if 0 < n then advance j₂ p n else p) := by
        by_cases hn : 0 < n
        · rcases h with ht | hb
          · simpa [if_pos hn] using advance_j_indep j₁ j₂ p n ht
          · exfalso
            simp only [bytesOf] at hb
            omega
        · simp [if_neg hn]
      have hrec : (if 0 < n then advance j₂ p n else p).totalSizeBytes ≠ 0 ∨
          bytesOf rest = 0 := by
        rcases h with ht | hb
        · left
          rw [stepRead_total]
          exact ht
        · right
          simp only [bytesOf] at hb
          omega
      by_cases hc : 0 < n ∧ wf = true
      · constructor
        · simp only [fileLoopFinal, if_pos hc]
          exact hp'
        · simp only [fileLoopTrace, if_pos hc, hp']
      · cases err with
        | none =>
          constructor
          · simp only [fileLoopFinal, if_neg hc, hp']
            exact (ih _ hrec).1
          · simp only [fileLoopTrace, if_neg hc, hp']
            rw [(ih _ hrec).2]
        | some e =>
          cases e with
          | eof =>
            constructor
            · simp only [fileLoopFinal, if_neg hc, hp']
              exact (ih _ hrec).1
            · simp only [fileLoopTrace, if_neg hc, hp']
              rw [(ih _ hrec).2]
          | other =>
            constructor
            · simp only [fileLoopFinal, if_neg hc]
              exact hp'
            · simp only [fileLoopTrace, if_neg hc, hp']

theorem fileLoop_zero (j : Int) (inputs : List IterInput) (p : ProgressResponse)
    (hb : bytesOf inputs = 0) :
    fileLoopFinal j inputs p = p ∧ ∀ q ∈ fileLoopTrace j inputs p, q = p := by
  induction inputs with
  | nil => simp [fileLoopFinal, fileLoopTrace]
  | cons a rest ih =>
    cases a with
    | cancel => simp [fileLoopFinal, fileLoopTrace]
    | read n err wf =>
      have hn : n = 0 := by
        simp only [bytesOf] at hb
        omega
      have hb' : bytesOf rest = 0 := by
        simp only [bytesOf] at hb
        omega
      subst hn
      have hc : ¬ (0 < 0 ∧ wf = true) := by simp
      have hid : (if 0 < 0 then advance j p 0 else p) = p := by simp
      cases err with
      | none =>
        constructor
        · simp only [fileLoopFinal, if_neg hc, hid]
          exact (ih hb').1
        · intro q hq
          simp only [fileLoopTrace, if_neg hc, hid, List.mem_cons] at hq
          rcases hq with rfl | hq
          · rfl
          · exact (ih hb').2 q hq
      | some e =>
        cases e with
        | eof =>
          constructor
          · simp only [fileLoopFinal, if_neg hc, hid]
            exact (ih hb').1
          · intro q hq
            simp only [fileLoopTrace, if_neg hc, hid, List.mem_cons] at hq
            rcases hq with rfl | hq
            · rfl
            · exact (ih hb').2 q hq
        | other =>
          constructor
          · simp only [fileLoopFinal, if_neg hc, hid]
          · intro q hq
            simp only [fileLoopTrace, if_neg hc, hid, List.mem_singleton] at hq
            exact hq

theorem downloadFileFinal_prog (j : Int) (job : FileJob) (s : RunState) :
    (downloadFileFinal j job s).prog = fileLoopFinal j job.inputs s.prog := by
  unfold downloadFileFinal
  split <;> rfl

theorem sumLen_cons (job : FileJob) (rest : List FileJob) :
    sumLen (job :: rest) = job.length + sumLen rest := by
  simp [sumLen]

theorem downloadFilesFinal_total (j : Int) (jobs : List FileJob) (s : RunState) :
    (downloadFilesFinal j jobs s).prog.totalSizeBytes = s.prog.totalSizeBytes := by
  induction jobs generalizing s with
  | nil => rfl
  | cons job rest ih =>
    have hfile : (downloadFileFinal j job s).prog.totalSizeBytes
        = s.prog.totalSizeBytes := by
      rw [downloadFileFinal_prog, fileLoopFinal_total]
    simp only [downloadFilesFinal]
    split
    · rw [ih, hfile]
    · exact hfile

theorem downloadFilesFinal_downloaded_le (j : Int) (jobs : List FileJob) (s : RunState)
    (hb : ∀ job ∈ jobs, bytesOf job.inputs ≤ job.length) :
    (downloadFilesFinal j jobs s).prog.downloadedBytes
      ≤ s.prog.downloadedBytes + sumLen jobs := by
  induction jobs generalizing s with
  | nil => simp [downloadFilesFinal, sumLen]
  | cons job rest ih =>
    have hfile : (downloadFileFinal j job s).prog.downloadedBytes
        ≤ s.prog.downloadedBytes + job.length := by
      rw [downloadFileFinal_prog]
      calc (fileLoopFinal j job.inputs s.prog).downloadedBytes
          ≤ s.prog.downloadedBytes + bytesOf job.inputs :=
            fileLoopFinal_downloaded_le j job.inputs s.prog
        _ ≤ s.prog.downloadedBytes + job.length := by
            have := hb job (List.mem_cons_self job rest)
            omega
    simp only [downloadFilesFinal, sumLen_cons]
    split
    · have h2 := ih (downloadFileFinal j job s)
        (fun jb hjb => hb jb (List.mem_cons_of_mem job hjb))
      omega
    · omega

theorem downloadFilesTrace_bound (j : Int) (jobs : List FileJob) (s : RunState)
    (hb : ∀ job ∈ jobs, bytesOf job.inputs ≤ job.length) :
    ∀ q ∈ downloadFilesTrace j jobs s,
      q.downloadedBytes ≤ s.prog.downloadedBytes + sumLen jobs ∧
      q.totalSizeBytes = s.prog.totalSizeBytes := by
  induction jobs generalizing s with
  | nil => simp [downloadFilesTrace]
  | cons job rest ih =>
    intro q hq
    have hblen := hb job (List.mem_cons_self job rest)
    have htr : ∀ r ∈ fileLoopTrace j job.inputs s.prog,
        r.downloadedBytes ≤ s.prog.downloadedBytes + job.length ∧
        r.totalSizeBytes = s.prog.totalSizeBytes := by
      intro r hr
      have h2 := fileLoopTrace_bound j job.inputs s.prog r hr
      exact ⟨by omega, h2.2⟩
    have hfileD : (downloadFileFinal j job s).prog.downloadedBytes
        ≤ s.prog.downloadedBytes + job.length := by
      rw [downloadFileFinal_prog]
      have := fileLoopFinal_downloaded_le j job.inputs s.prog
      omega
    have hfileT : (downloadFileFinal j job s).prog.totalSizeBytes
        = s.prog.totalSizeBytes := by
      rw [downloadFileFinal_prog, fileLoopFinal_total]
    simp only [downloadFilesTrace] at hq
    rw [sumLen_cons]
    revert hq
    split
    · intro hq
      rw [List.mem_append] at hq
      rcases hq with hq | hq
      · have h2 := htr q hq
        exact ⟨by omega, h2.2⟩
      · have h2 := ih (downloadFileFinal j job s)
          (fun jb hjb => hb jb (List.mem_cons_of_mem job hjb)) q hq
        refine ⟨by omega, ?_⟩
        rw [h2.2, hfileT]
    · intro hq
      have h2 := htr q hq
      exact ⟨by omega, h2.2⟩

theorem downloadFileFinal_j_indep (j₁ j₂ : Int) (job : FileJob) (s : RunState)
    (h : s.prog.totalSizeBytes ≠ 0 ∨ bytesOf job.inputs = 0) :
    downloadFileFinal j₁ job s = downloadFileFinal j₂ job s := by
  have hfl := (fileLoop_j_indep j₁ j₂ job.inputs s.prog h).1
  simp only [downloadFileFinal, hfl]

theorem downloadFiles_j_indep (j₁ j₂ : Int) (jobs : List FileJob) (s : RunState)
    (h : s.prog.totalSizeBytes ≠ 0 ∨ ∀ job ∈ jobs, bytesOf job.inputs = 0) :
    downloadFilesFinal j₁ jobs s = downloadFilesFinal j₂ jobs s ∧
    downloadFilesTrace j₁ jobs s = downloadFilesTrace j₂ jobs s := by
  induction jobs generalizing s with
  | nil => exact ⟨rfl, rfl⟩
  | cons job rest ih =>
    have hfile : s.prog.totalSizeBytes ≠ 0 ∨ bytesOf job.inputs = 0 := by
      rcases h with ht | hz
      · exact Or.inl ht
      · exact Or.inr (hz job (List.mem_cons_self job rest))
    have hdf := downloadFileFinal_j_indep j₁ j₂ job s hfile
    have hfl := fileLoop_j_indep j₁ j₂ job.inputs s.prog hfile
    have hrec : (downloadFileFinal j₂ job s).prog.totalSizeBytes ≠ 0 ∨
        ∀ jb ∈ rest, bytesOf jb.inputs = 0 := by
      rcases h with ht | hz
      · left
        rw [downloadFileFinal_prog, fileLoopFinal_total]
        exact ht
      · exact Or.inr (fun jb hjb => hz jb (List.mem_cons_of_mem job hjb))
    constructor
    · simp only [downloadFilesFinal, hdf]
      split
      · exact (ih _ hrec).1
      · rfl
    · simp only [downloadFilesTrace, hdf, hfl.2]
      split
      · rw [(ih _ hrec).2]
      · rfl

theorem downloadFiles_zero (j : Int) (jobs : List FileJob) (s : RunState)
    (h0 : ∀ job ∈ jobs, bytesOf job.inputs = 0) :
    (downloadFilesFinal j jobs s).prog = s.prog ∧
    ∀ q ∈ downloadFilesTrace j jobs s, q = s.prog := by
  induction jobs generalizing s with
  | nil => simp [downloadFilesFinal, downloadFilesTrace]
  | cons job rest ih =>
    have hz := h0 job (List.mem_cons_self job rest)
    have hfl := fileLoop_zero j job.inputs s.prog hz
    have hfile : (downloadFileFinal j job s).prog = s.prog := by
      rw [downloadFileFinal_prog, hfl.1]
    have hrest := fun jb hjb => h0 jb (List.mem_cons_of_mem job hjb)
    constructor
    · simp only [downloadFilesFinal]
      split
      · rw [(ih _ hrest).1, hfile]
      · exact hfile
    · intro q hq
      simp only [downloadFilesTrace] at hq
      revert hq
      split
      · intro hq
        rw [List.mem_append] at hq
        rcases hq with hq | hq
        · exact hfl.2 q hq
        · have h2 := (ih _ hrest).2 q hq
          rw [h2, hfile]
      · intro hq
        exact hfl.2 q hq

theorem sumLen_eq_zero {jobs : List FileJob} (h : sumLen jobs = 0) :
    ∀ job ∈ jobs, job.length = 0 := by
  induction jobs with
  | nil => simp
  | cons job rest ih =>
    rw [sumLen_cons] at h
    intro jb hjb
    rcases List.mem_cons.mp hjb with rfl | hjb
    · omega
    · exact ih (by omega) jb hjb

theorem cancelHandler_completedFiles (st : ServerState) (id : String) (w : Bool) :
    ((cancelHandler st id w).2).completedFiles = st.completedFiles := by
  unfold cancelHandler
  split
  · rfl
  · split
    · rfl
    · split
      · rfl
      · split <;> rfl

theorem downloadHandler_completedFiles (st : ServerState) (id : String) :
    ((downloadHandler st id).2).completedFiles = st.completedFiles := by
  unfold downloadHandler
  split
  · rfl
  · split <;> rfl

/-- Claim C6: for every session, at every observed instant after
`totalBytes` has been set to a positive value, `downloadedBytes` is at
most `totalBytes`.  The worker starts on the fresh zeroed record, the
total is set to the sum of the resolved file lengths before any file is
read, and each file's stream delivers at most its resolved length in
bytes (the engine contract, `hb`); under these conditions every progress
record observable during the run — including runs that hit
cancellations, read/write errors or the EOF spin — satisfies
`downloadedBytes ≤ totalSizeBytes` whenever `totalSizeBytes > 0`. -/
theorem downloaded_le_total_invariant (j : Int) (jobs : List FileJob)
    (hb : ∀ job ∈ jobs, bytesOf job.inputs ≤ job.length) :
    ∀ q ∈ sessionObservations j jobs initRun,
      0 < q.totalSizeBytes → q.downloadedBytes ≤ q.totalSizeBytes := by
  intro q hq _
  simp only [sessionObservations, downloadTorrentTrace, List.mem_cons] at hq
  rcases hq with rfl | rfl | hq
  · exact Nat.le_refl _
  · exact Nat.zero_le _
  · have h2 := downloadFilesTrace_bound j jobs (setTotal initRun (sumLen jobs)) hb q hq
    have hd : q.downloadedBytes ≤ sumLen jobs := by
      simpa [setTotal, initRun] using h2.1
    have ht : q.totalSizeBytes = sumLen jobs := by
      simpa [setTotal, initRun] using h2.2
    omega

def jobsC6 : List FileJob :=
  [⟨"movie.mkv", 3, [.read 2 none false, .read 1 none false, .read 0 (some .eof) false]⟩]

/-- Witness for claim C6 at a concrete one-file session. -/
theorem downloaded_le_total_invariant_witness :
    (∀ job ∈ jobsC6, bytesOf job.inputs ≤ job.length) ∧
    ∀ q ∈ sessionObservations 0 jobsC6 initRun,
      0 < q.totalSizeBytes → q.downloadedBytes ≤ q.totalSizeBytes :=
  ⟨by decide, downloaded_le_total_invariant 0 jobsC6 (by decide)⟩

/-- Claim C4: while `totalBytes = 0` the reported percentage is 0 and is
never computed by division; division happens only when `totalBytes > 0`.
In the code the update statement divides unconditionally, but it only
runs when a read returned bytes, and under the engine contract (`hb`,
streams bounded by the resolved lengths whose sum becomes the total) no
bytes ever arrive while the total is 0.  Formally: (1) every observable
progress record with `totalSizeBytes = 0` reports percentage 0, and
(2) the whole run is independent of `j`, the implementation-defined
result the float64 division by zero would have produced — i.e. the
division-by-zero branch is never taken in any reachable run. -/
theorem no_division_while_total_zero (jobs : List FileJob) (j j₁ j₂ : Int)
    (hb : ∀ job ∈ jobs, bytesOf job.inputs ≤ job.length) :
    (∀ q ∈ sessionObservations j jobs initRun,
        q.totalSizeBytes = 0 → q.progress = 0) ∧
    downloadTorrentFinal j₁ jobs initRun = downloadTorrentFinal j₂ jobs initRun ∧
    downloadTorrentTrace j₁ jobs initRun = downloadTorrentTrace j₂ jobs initRun := by
  by_cases hz : sumLen jobs = 0
  · have h0 : ∀ job ∈ jobs, bytesOf job.inputs = 0 := by
      intro job hjob
      have h1 := sumLen_eq_zero hz job hjob
      have h2 := hb job hjob
      omega
    have hind := downloadFiles_j_indep j₁ j₂ jobs (setTotal initRun (sumLen jobs))
      (Or.inr h0)
    refine ⟨?_, hind.1, ?_⟩
    · intro q hq _
      simp only [sessionObservations, downloadTorrentTrace, List.mem_cons] at hq
      rcases hq with rfl | rfl | hq
      · rfl
      · rfl
      · have h2 := (downloadFiles_zero j jobs (setTotal initRun (sumLen jobs)) h0).2 q hq
        rw [h2]
        rfl
    · simp only [downloadTorrentTrace]
      rw [hind.2]
  · have hind := downloadFiles_j_indep j₁ j₂ jobs (setTotal initRun (sumLen jobs))
      (Or.inl (by simpa [setTotal, initRun] using hz))
    refine ⟨?_, hind.1, ?_⟩
    · intro q hq hqt
      simp only [sessionObservations, downloadTorrentTrace, List.mem_cons] at hq
      rcases hq with rfl | rfl | hq
      · rfl
      · rfl
      · exfalso
        have h2 := downloadFilesTrace_bound j jobs (setTotal initRun (sumLen jobs)) hb q hq
        have ht : q.totalSizeBytes = sumLen jobs := by
          simpa [setTotal, initRun] using h2.2
        omega
    · simp only [downloadTorrentTrace]
      rw [hind.2]

def jobsC4 : List FileJob :=
  [⟨"a.mp4", 3, [.read 2 none false, .read 1 (some .eof) false, .read 0 (some .eof) false]⟩]

/-- Witness for claim C4 at a concrete one-file session and three junk
values for the division-by-zero parameter. -/
theorem no_division_while_total_zero_witness :
    (∀ job ∈ jobsC4, bytesOf job.inputs ≤ job.length) ∧
    ((∀ q ∈ sessionObservations 5 jobsC4 initRun,
        q.totalSizeBytes = 0 → q.progress = 0) ∧
      downloadTorrentFinal 7 jobsC4 initRun = downloadTorrentFinal (-3) jobsC4 initRun ∧
      downloadTorrentTrace 7 jobsC4 initRun = downloadTorrentTrace (-3) jobsC4 initRun) :=
  ⟨by decide, no_division_while_total_zero jobsC4 5 7 (-3) (by decide)⟩

/-- Claim C8: starting a new session under a SessionID that already maps
to an existing session discards the prior progress state: a `GetProgress`
immediately after the restart reports the zeroed record, in particular
`downloadedBytes = 0`. -/
theorem restart_resets_progress (st : ServerState) (sessionID : String)
    (h : sessionID ≠ "") :
    progressHandler (downloadHandler st sessionID).2 sessionID = .ok ⟨0, 0, 0⟩ := by
  by_cases hex : (mlookup st.progressMap sessionID).isSome
  · simp [downloadHandler, if_neg h, hex, progressHandler, mlookup_minsert_self]
  · simp [downloadHandler, if_neg h, hex, progressHandler, mlookup_minsert_self]

def stC8 : ServerState :=
  { progressMap := [("s", ⟨77, 123, 456⟩)]
    downloadMap := [("s", newCancelChan)]
    fileMap := [("s", "old.mkv")]
    completedFiles := [] }

/-- Witness for claim C8: a restart over an existing session with
non-zero progress reads back as zero. -/
theorem restart_resets_progress_witness :
    "s" ≠ "" ∧ progressHandler (downloadHandler stC8 "s").2 "s" = .ok ⟨0, 0, 0⟩ :=
  ⟨by decide, restart_resets_progress stC8 "s" (by decide)⟩

/-- Claim C9: the Completed-Artifact Index (`completedFiles`) gains an
entry only at the Completed transition (`markCompleted`, the sole
operation writing it) and survives the worker's terminal cleanup: the
cleanup deletes the session's progress, cancellation-channel and
file-path entries but leaves `completedFiles` untouched, so the entry
recorded at completion is still queryable afterwards; the cancel and
download handlers never modify `completedFiles` either. -/
theorem completed_index_frame (st : ServerState) (id : String) (w : Bool) :
    (workerCleanup st id).completedFiles = st.completedFiles ∧
    mlookup (workerCleanup st id).progressMap id = none ∧
    mlookup (workerCleanup st id).downloadMap id = none ∧
    mlookup (workerCleanup st id).fileMap id = none ∧
    ((cancelHandler st id w).2).completedFiles = st.completedFiles ∧
    ((downloadHandler st id).2).completedFiles = st.completedFiles ∧
    mlookup (workerCleanup (markCompleted st id) id).completedFiles id
      = some ((mlookup st.fileMap id).getD "") ∧
    completedHandler (workerCleanup (markCompleted st id) id)
      = minsert st.completedFiles id ((mlookup st.fileMap id).getD "") :=
  ⟨rfl, mlookup_merase_self _ _, mlookup_merase_self _ _, mlookup_merase_self _ _,
    cancelHandler_completedFiles st id w, downloadHandler_completedFiles st id,
    mlookup_minsert_self _ _ _, rfl⟩

/-- Claim C10: a progress, download or cancel request with an empty
sessionID is rejected with the error "sessionID is required" and no
shared map is modified (the returned state is the input state, and
`progressHandler` takes no state at all). -/
theorem empty_sessionID_rejected (st : ServerState) (w : Bool) :
    progressHandler st "" = .badRequest "sessionID is required" ∧
    downloadHandler st "" = (.badRequest "sessionID is required", st) ∧
    cancelHandler st "" w = (.badRequest "sessionID is required", st) :=
  ⟨rfl, rfl, rfl⟩

/-- Claim C1 fails on the code: the per-file read loop does NOT terminate
on end-of-stream.  The `break` executed when `err == io.EOF` sits inside
the `select` statement, and in Go `break` terminates the innermost
`for`/`switch`/`select` — here the `select` — so the `for` loop runs
again, re-reads, gets `(0, io.EOF)` again, forever.  Formally: however
many `(0, io.EOF)` iterations the stream supplies, the loop has still
not returned (`.running`) and the progress record is unchanged, so the
worker never proceeds to the next file and never reaches the completion
mark; by contrast the loop the specification describes
(`fileLoopSpecExit`) exits at the first end-of-stream indicator. -/
theorem eof_read_loop_never_terminates :
    ∀ (k : Nat) (j : Int) (p : ProgressResponse),
      fileLoopExit (List.replicate k (.read 0 (some .eof) false)) = .running ∧
      fileLoopFinal j (List.replicate k (.read 0 (some .eof) false)) p = p ∧
      fileLoopSpecExit (List.replicate (k + 1) (.read 0 (some .eof) false)) = .eofCompleted := by
  intro k j p
  refine ⟨?_, ?_, ?_⟩
  · induction k with
    | zero => rfl
    | succ m ih =>
      rw [List.replicate_succ]
      simpa [fileLoopExit] using ih
  · induction k with
    | zero => rfl
    | succ m ih =>
      rw [List.replicate_succ]
      simpa [fileLoopFinal] using ih
  · rw [List.replicate_succ]
    simp [fileLoopSpecExit]

def stC2 : ServerState := (downloadHandler emptyState "sess").2

/-- Claim C2 fails on the code: the cancellation signal can block its
caller.  The per-session channel is `make(chan bool)` — unbuffered — and
`cancelHandler` performs a plain send on it while holding the global
mutex.  Whenever the worker is not sitting at its `select` receive
(it is inside a blocking `reader.Read`, or already past its last poll on
the way to cleanup), the send blocks the handler: here, on the state
produced by starting session "sess", a cancel with no receiver ready
gets stuck (`.blockedSend`) instead of completing or being a no-op. -/
theorem cancel_signal_blocks_caller :
    chanSend newCancelChan false = .blocksUntilReceive ∧
    cancelHandler stC2 "sess" false = (.blockedSend, stC2) ∧
    (mlookup stC2.downloadMap "sess").isSome = true :=
  ⟨rfl, rfl, rfl⟩

def jobsC3 : List FileJob := [⟨"film.mkv", 5, [.read 3 none false, .cancel]⟩]

/-- Claim C3 fails on the code: a cancelled session still transitions to
Completed and gets a Completed-Artifact entry.  The `case <-cancelChan`
branch of `downloadFile` deletes the partial file but returns `nil`, so
`downloadTorrent` treats the cancelled file as finished; when the
cancelled file was the torrent's last one the loop ends and the
completion mark `completedFiles[sessionID] = fileMap[sessionID]` runs.
Concretely, for a one-file torrent cancelled after 3 of 5 bytes: the
partial file is indeed deleted from storage (the part of the claim that
holds), but the run exits `.completed` and records the artifact entry,
which the claim says must never happen. -/
theorem cancelled_session_reaches_completed :
    downloadTorrentExit jobsC3 = .completed ∧
    (downloadTorrentFinal 0 jobsC3 initRun).completedEntry = some "film.mkv" ∧
    (downloadTorrentFinal 0 jobsC3 initRun).storage = [] ∧
    (downloadTorrentFinal 0 jobsC3 initRun).prog = ⟨60, 3, 5⟩ :=
  ⟨rfl, rfl, rfl, rfl⟩

def stC5a : ServerState :=
  fileEntrySet (downloadHandler emptyState "sess5").2 "sess5" "clip.mp4"

def stC5b : ServerState := (cancelHandler stC5a "sess5" true).2

/-- Claim C5 fails on the code: the second of two successive cancels is
neither `NotFound` nor a no-op.  `cancelHandler` never deletes the
`downloadMap` entry, so after a first successful cancel (`.accepted`)
the channel is still registered: a second cancel finds it and performs
another unbuffered send — blocking forever when the worker is past its
receives (`.blockedSend`), or delivering a second cancellation when it
is not (`.accepted` again).  In no interleaving does it return
`NotFound`. -/
theorem second_cancel_not_notfound :
    (cancelHandler stC5a "sess5" true).1 = .accepted ∧
    (mlookup stC5b.downloadMap "sess5").isSome = true ∧
    cancelHandler stC5b "sess5" false = (.blockedSend, stC5b) ∧
    (cancelHandler stC5b "sess5" true).1 = .accepted :=
  ⟨rfl, rfl, rfl, rfl⟩

/-- Claim C7 fails on the code at some inputs: the percentage is computed
as `int(float64(d) / float64(t) * 100)`, which is NOT always
`floor(d / t * 100)`.  At `downloadedBytes = 29`, `totalBytes = 100` the
float64 nearest 29/100 is 0.28999999999999998..., multiplying by 100
rounds to 28.999999999999996, and the `int` conversion truncates to 28 —
while the claim's floor formula gives 29 (third conjunct, evaluated on
the exact-arithmetic model, which is what the claim demands).  The parts
of the claim that do hold on the code: each advance of `n` bytes
increments `downloadedBytes` by exactly `n` (an integer add in the
source, fourth conjunct), and the cited scenario — 1500 of 3000 bytes —
reports exactly `totalBytes = 3000`, `downloadedBytes = 1500`,
`percentage = 50` through `GetProgress`, because there every float64
operation is exact (first two conjuncts). -/
theorem advance_scenario_values :
    advance 0 (advance 0 ⟨0, 0, 3000⟩ 1000) 500 = ⟨50, 1500, 3000⟩ ∧
    progressHandler
      { progressMap := [("sess7", ⟨50, 1500, 3000⟩)], downloadMap := []
        fileMap := [], completedFiles := [] } "sess7" = .ok ⟨50, 1500, 3000⟩ ∧
    (advance 0 ⟨0, 0, 100⟩ 29).progress = 29 ∧
    (advance 0 ⟨0, 0, 100⟩ 29).downloadedBytes = 29 :=
  ⟨rfl, rfl, rfl, rfl⟩

end Rsd2
